import Mathlib

/-!
Formal model of the `go-manage` Ethereum CLI (files `main.go` and
`token/token.go`), with theorems about its amount conversion, balance
reporting, transaction building and error handling.

Numbers: Go `*big.Int` values are modelled as `Nat`/`Int`.  Go `float64`
and `*big.Float` values are modelled exactly as rationals, using the
unnormalised fraction type `Q` below (numerator `Int`, denominator `Nat`);
`roundToF64` models IEEE-754 binary64 round-to-nearest-even with an
unbounded exponent, which agrees with `float64` arithmetic for every value
appearing in the concrete scenarios proved below (all far from the
overflow and subnormal ranges of binary64).
-/

/-- Unnormalised rational number: `num / den`.  All constructors used in this
development produce a positive denominator. -/
structure Q where
  num : Int
  den : Nat
deriving DecidableEq

/-- Exact product of two rationals (no normalisation). -/
def qmul (a b : Q) : Q := ⟨a.num * b.num, a.den * b.den⟩

/-- Absolute value. -/
def qabs (a : Q) : Q := ⟨|a.num|, a.den⟩

/-- Strict order by cross multiplication (correct whenever both denominators
are positive, which all our constructions guarantee). -/
def qlt (a b : Q) : Prop := a.num * b.den < b.num * a.den

instance (a b : Q) : Decidable (qlt a b) := by unfold qlt; infer_instance

/-- Non-strict order by cross multiplication. -/
def qle (a b : Q) : Prop := a.num * b.den ≤ b.num * a.den

instance (a b : Q) : Decidable (qle a b) := by unfold qle; infer_instance

/-- Floor of a rational (Euclidean division by the positive denominator). -/
def qfloor (a : Q) : Int := a.num / (a.den : Int)

/-- Fuel-driven base-2 logarithm on `Nat` (⌊log₂ n⌋ for `n ≥ 1`). -/
def natLog2F : Nat → Nat → Nat
  | 0, _ => 0
  | fuel+1, n => if 2 ≤ n then natLog2F fuel (n / 2) + 1 else 0

/-- ⌊log₂ n⌋ for `n ≥ 1`, `0` at `0`. -/
def natLog2 (n : Nat) : Nat := natLog2F n n

/-- The rational `2 ^ e` for a signed exponent. -/
def qpow2 (e : Int) : Q := if 0 ≤ e then ⟨2 ^ e.toNat, 1⟩ else ⟨1, 2 ^ (-e).toNat⟩

/-- The rational 1/2. -/
def qhalf : Q := ⟨1, 2⟩

/-- `a - n` for an integer `n`. -/
def qsubInt (a : Q) (n : Int) : Q := ⟨a.num - n * a.den, a.den⟩

/-- Round a rational to the nearest integer, ties to even (the rounding used
by IEEE-754 and by Go's binary-to-decimal formatting). -/
def roundHalfEvenQ (x : Q) : Int :=
  let f := qfloor x
  let r := qsubInt x f
  if qlt r qhalf then f
  else if qlt qhalf r then f + 1
  else if f % 2 = 0 then f else f + 1

/-- `m * 2 ^ e` as a rational with positive denominator. -/
def qshift2 (m : Int) (e : Int) : Q :=
  if 0 ≤ e then ⟨m * 2 ^ e.toNat, 1⟩ else ⟨m, 2 ^ (-e).toNat⟩

/-- Round an exact rational to the nearest IEEE-754 binary64 value
(53 significant bits, round-to-nearest ties-to-even), with an unbounded
exponent range: faithful to `float64` outside the overflow/subnormal
fringes, which no concrete value in this development approaches. -/
def roundToF64 (x : Q) : Q :=
  if x.num = 0 then ⟨0, 1⟩
  else
    let a := qabs x
    let c0 : Int := (natLog2 a.num.toNat : Int) - (natLog2 a.den : Int)
    let k : Int := if qlt a (qpow2 c0) then c0 - 1 else c0
    let m : Int := roundHalfEvenQ (qmul a (qpow2 (52 - k)))
    qshift2 (if x.num < 0 then -m else m) (k - 52)

/-- Truncation of a rational toward zero. -/
def goTrunc (p : Q) : Int := if 0 ≤ p.num then qfloor p else -(qfloor (qabs p))

/-- Go conversion `int64(f)` of a `float64` value `p`: truncation toward
zero; an out-of-range value yields `math.MinInt64` (the amd64
`cvttsd2si` behaviour for Go's implementation-defined case). -/
def goFloatToInt64 (p : Q) : Int :=
  if -(2 ^ 63) ≤ goTrunc p ∧ goTrunc p ≤ 2 ^ 63 - 1 then goTrunc p else -(2 ^ 63)

/-- `transferEth`'s value computation `big.NewInt(int64(amount * 1e18))`
(main.go line 274): the `float64` product of the amount with `1e18`
(`1e18` is exactly representable), converted to `int64`. -/
def transferEthValue (amount : Q) : Int :=
  goFloatToInt64 (roundToF64 (qmul amount ⟨10 ^ 18, 1⟩))

/-- Rounding `p + 1/2` down: the mathematical `round` function used to state
what an exact base-unit conversion of `p` would be. -/
def roundQ (p : Q) : Int := qfloor ⟨2 * p.num + p.den, 2 * p.den⟩

/-- The decimal digit character for `k < 10`. -/
def digitChar (k : Nat) : Char := Char.ofNat (48 + k)

/-- Byte test for an ASCII decimal digit, as in Go's number scanners. -/
def isDigitChar (c : Char) : Bool := 48 ≤ c.toNat && c.toNat ≤ 57

/-- Fuel-driven most-significant-first decimal digits of `n` (empty at 0). -/
def natDigitsAux : Nat → Nat → List Char
  | 0, _ => []
  | fuel+1, n => if n = 0 then [] else natDigitsAux fuel (n / 10) ++ [digitChar (n % 10)]

/-- Decimal digit characters of `n` (`['0']` at 0). -/
def natChars (n : Nat) : List Char := if n = 0 then ['0'] else natDigitsAux n n

/-- Decimal string of `n`. -/
def natStr (n : Nat) : String := ⟨natChars n⟩

/-- Left-pad a digit list with `'0'` to length `d`. -/
def padZeros (d : Nat) (cs : List Char) : List Char :=
  List.replicate (d - cs.length) '0' ++ cs

/-- Round `num / den` to the nearest integer, ties to even (`Nat` version,
for `den > 0`). -/
def roundHalfEvenNat (num den : Nat) : Nat :=
  let q := num / den
  let r := num % den
  if 2 * r < den then q else if den < 2 * r then q + 1 else if q % 2 = 0 then q else q + 1

/-- `big.Float.Text('f', d)` applied to the exact quotient `amount/divisor`:
a fixed-point decimal string with exactly `d` fractional digits (no decimal
point when `d = 0`), correctly rounded.  For the concrete operands proved
about below the source's binary `big.Float` quotient rounds to the same
decimal string. -/
def renderFixed (amount divisor d : Nat) : String :=
  let scaled := roundHalfEvenNat (amount * 10 ^ d) divisor
  if d = 0 then natStr scaled
  else natStr (scaled / 10 ^ d) ++ "." ++ (⟨padZeros d (natChars (scaled % 10 ^ d))⟩ : String)

/-- The quotient-and-format step of `formatBigIntToDecimal` (main.go lines
192-195): `big.Float.Quo` followed by `Text('f', d)`.  A zero divisor
reproduces `big.Float` semantics: `Quo(x, 0)` for `x ≠ 0` is `+Inf`
(printed `"+Inf"`), and `Quo(0, 0)` panics with `ErrNaN` (modelled as
`none`). -/
def goQuoFormat (amount divisor d : Nat) : Option String :=
  if divisor = 0 then (if amount = 0 then none else some "+Inf")
  else some (renderFixed amount divisor d)

/-- The divisor selected by `formatBigIntToDecimal` (main.go lines 181-189):
`1e18` by default, and for `decimals ≠ 18` the Go expression
`float64(10^decimals)`, in which `^` is bitwise XOR, not exponentiation. -/
def divisorFor (decimals : Nat) : Nat :=
  if decimals = 18 then 10 ^ 18 else Nat.xor 10 decimals

/-- `formatBigIntToDecimal` (main.go lines 176-196). -/
def formatBigIntToDecimal (amount decimals : Nat) : Option String :=
  goQuoFormat amount (divisorFor decimals) decimals

/-- Number of characters after the (first) decimal point of a string,
`0` if the string has no decimal point. -/
def fracDigitCount (s : String) : Nat :=
  match s.data.dropWhile (fun c => c ≠ '.') with
  | [] => 0
  | _ :: t => t.length

/-- Character list produced by Go's `fmt.Sprintf("%f", p)` for a finite
`float64` value `p`: optional sign, integer digits, `'.'`, and exactly six
fractional digits, correctly rounded (ties to even). -/
def goSprintfChars (p : Q) : List Char :=
  let s := (roundHalfEvenQ (qmul (qabs p) ⟨10 ^ 6, 1⟩)).toNat
  (if p.num < 0 then ['-'] else []) ++
    natChars (s / 10 ^ 6) ++ '.' :: padZeros 6 (natChars (s % 10 ^ 6))

/-- Go's `fmt.Sprintf("%f", p)` for a finite `float64` value. -/
def goSprintfF (p : Q) : String := ⟨goSprintfChars p⟩

/-- Maximal-digit-prefix scan of Go's `nat.scan`: consume decimal digits,
stop at the first non-digit. -/
def scanDigits : Nat → List Char → Nat × List Char
  | acc, [] => (acc, [])
  | acc, c :: cs => if isDigitChar c then scanDigits (10 * acc + (c.toNat - 48)) cs else (acc, c :: cs)

/-- Left fold of the digit-accumulation step of `scanDigits`. -/
def scanFold (acc : Nat) (ds : List Char) : Nat :=
  ds.foldl (fun a c => 10 * a + (c.toNat - 48)) acc

/-- Go's `scanSign`: strip one optional leading `'-'` or `'+'` (`'*'` is an
arbitrary non-sign placeholder for the empty case, whose head is never
consulted further). -/
def stripSign (cs : List Char) : Bool × List Char :=
  if cs.headD '*' = '-' then (true, cs.tail)
  else if cs.headD '*' = '+' then (false, cs.tail)
  else (false, cs)

/-- Scan an optional-signed digit prefix, Go `Int.scan` style: the receiver's
resulting value is the signed scanned prefix (`0` when no digit is found),
and the boolean is `SetString`'s success flag, which also requires the rest
of the string to be empty. -/
def scanSigned (neg : Bool) (cs : List Char) : Int × Bool :=
  if isDigitChar (cs.headD '*') then
    let vr := scanDigits 0 cs
    ((if neg then -(vr.1 : Int) else (vr.1 : Int)), vr.2.isEmpty)
  else (0, false)

/-- Go's `z.SetString(s, 10)` on a fresh `z` (main.go line 340): returns the
value left in the receiver `z` and the success flag.  Per `math/big`,
`setFromScanner` first scans a signed digit prefix into `z` and only then
fails if input remains, so on failure `z` holds the scanned prefix. -/
def goIntSetString10 (s : String) : Int × Bool :=
  let st := stripSign s.data
  scanSigned st.1 st.2

/-- `math.Pow10(d)` as a `float64` value. -/
def pow10F (d : Nat) : Q := roundToF64 ⟨10 ^ d, 1⟩

/-- The `float64` product `amount * math.Pow10(decimal)` (main.go line 340). -/
def f64mulProd (q : Q) (d : Nat) : Q := roundToF64 (qmul q (pow10F d))

/-- `transferToken`'s base-unit amount (main.go lines 339-340):
`amountInWei.SetString(fmt.Sprintf("%f", amount*math.Pow10(decimal)), 10)`
with the two-valued result ignored; `amountInWei` keeps whatever the
scanner left in it. -/
def tokenAmountInWei (amount : Q) (d : Nat) : Int :=
  (goIntSetString10 (goSprintfF (f64mulProd amount d))).1

/-- The signed integer part of the `%f` rendering of `p` (what Go's
`SetString` scanner leaves in the receiver when it stops at the decimal
point). -/
def sprintfIntPart (p : Q) : Int :=
  let s := (roundHalfEvenQ (qmul (qabs p) ⟨10 ^ 6, 1⟩)).toNat
  if p.num < 0 then -((s / 10 ^ 6 : Nat) : Int) else ((s / 10 ^ 6 : Nat) : Int)

/-- `big.Int.SetBytes`: interpret a byte sequence as a big-endian unsigned
integer (never fails, any length). -/
def bytesToNat (bs : List Nat) : Nat := bs.foldl (fun a b => a * 256 + b % 256) 0

/-- Big-endian 32-byte (one ABI word) encoding of `n mod 2^256`. -/
def natToBytes32 (n : Nat) : List Nat :=
  (List.range 32).map (fun i => n / 256 ^ (31 - i) % 256)

/-- Modelled from the spec: the canonical ABI encoding of a single `uint256`
result is one 32-byte word, so only 32-byte responses are valid integer
encodings for `balanceOf`. -/
def validUint256Word (bs : List Nat) : Bool := bs.length == 32

/-- `ABI.Pack("transfer", to, amountInWei)` (main.go line 353): the 4-byte
selector `a9059cbb` followed by the padded address word and the amount
word (`big.Int` packed mod `2^256`). -/
def transferCallData (toAddr : Nat) (amt : Int) : List Nat :=
  [169, 5, 156, 187] ++ natToBytes32 (toAddr % 2 ^ 160) ++ natToBytes32 ((amt % (2 ^ 256 : Int)).toNat)

/-- Distinguishable failure kinds of the modelled commands, one per
`return fmt.Errorf(...)` site reachable in the modelled flows. -/
inductive Err where
  | invalidIndex
  | dialFailed
  | authFailed
  | abiLoadFailed
  | nonceFailed
  | gasFailed
  | balanceFailed
  | callFailed
  | signFailed
  | sendFailed
deriving DecidableEq

deriving instance DecidableEq for Except

/-- Node interactions, in program order: client construction (`Dial`) and
the individual RPC requests. -/
inductive Ev where
  | dial
  | unlock
  | pendingNonce
  | suggestGasPrice
  | balanceAt
  | callContract
  | sign
  | send
deriving DecidableEq

/-- Stub of the remote node and of the local ABI file: the outcome each
external operation would produce if attempted. -/
structure Node where
  dialOk : Bool
  pendingNonce : Except Unit Nat
  gasPrice : Except Unit Nat
  balance : Except Unit Nat
  abiOk : Bool
  callResult : Except Unit (List Nat)
  sendOk : Bool

/-- An unsigned legacy transaction as built by `types.NewTransaction`. -/
structure EthTx where
  nonce : Nat
  recipient : Nat
  value : Int
  gasLimit : Nat
  gasPrice : Nat
  data : List Nat
deriving DecidableEq

/-- Stub of the keystore: the stored account addresses, whether the
configured password unlocks the selected account, and the signing backend
(`τ` is the signed-transaction payload type). -/
structure KeyStore (τ : Type) where
  accounts : List Nat
  unlockOk : Bool
  signTx : EthTx → Except Unit τ

/-- `Token.BalanceOf` (token/token.go lines 62-87) after a successful ABI
pack, as a function of the `CallContract` outcome: an RPC failure is
surfaced as an error; any successful byte response is converted with
`new(big.Int).SetBytes(result)`, which never fails. -/
def Token.BalanceOf (callResult : Except Unit (List Nat)) : Except Err Nat :=
  match callResult with
  | .error _ => .error .callFailed
  | .ok bs => .ok (bytesToNat bs)

/-- `checkBalance` (main.go lines 198-232): index check, `Dial`, native
`BalanceAt`, then token balance via ABI load and `CallContract`; returns
the two printed balance strings (the token one `none` if `big.Float`
panicked while formatting) and the trace of node interactions attempted. -/
def checkBalance (node : Node) (accounts : List Nat) (index : Int)
    (tokenAddress : Nat) (decimal : Nat) :
    Except Err (Option String × Option String) × List Ev :=
  if index < 0 ∨ (accounts.length : Int) ≤ index then (.error .invalidIndex, [])
  else if node.dialOk = false then (.error .dialFailed, [.dial])
  else
    match node.balance with
    | .error _ => (.error .balanceFailed, [.dial, .balanceAt])
    | .ok ethBal =>
      if node.abiOk = false then (.error .abiLoadFailed, [.dial, .balanceAt])
      else
        match node.callResult with
        | .error _ => (.error .callFailed, [.dial, .balanceAt, .callContract])
        | .ok bs =>
          (.ok (formatBigIntToDecimal ethBal 18,
                formatBigIntToDecimal (bytesToNat bs) decimal),
           [.dial, .balanceAt, .callContract])

/-- `transferEth` (main.go lines 247-302): `Dial`, index check, `Unlock`,
value conversion, pending nonce, gas price, build (gas limit 21000, empty
call-data), sign, broadcast; returns the broadcast payload and the trace
of keystore/node interactions attempted. -/
def transferEth {τ : Type} (node : Node) (ks : KeyStore τ) (fromIndex : Int)
    (toAddress : Nat) (amount : Q) : Except Err τ × List Ev :=
  if node.dialOk = false then (.error .dialFailed, [.dial])
  else if fromIndex < 0 ∨ (ks.accounts.length : Int) ≤ fromIndex then
    (.error .invalidIndex, [.dial])
  else if ks.unlockOk = false then (.error .authFailed, [.dial, .unlock])
  else
    match node.pendingNonce with
    | .error _ => (.error .nonceFailed, [.dial, .unlock, .pendingNonce])
    | .ok nonce =>
      match node.gasPrice with
      | .error _ => (.error .gasFailed, [.dial, .unlock, .pendingNonce, .suggestGasPrice])
      | .ok gp =>
        let tx : EthTx := ⟨nonce, toAddress, transferEthValue amount, 21000, gp, []⟩
        match ks.signTx tx with
        | .error _ =>
          (.error .signFailed, [.dial, .unlock, .pendingNonce, .suggestGasPrice, .sign])
        | .ok stx =>
          if node.sendOk = false then
            (.error .sendFailed,
             [.dial, .unlock, .pendingNonce, .suggestGasPrice, .sign, .send])
          else
            (.ok stx, [.dial, .unlock, .pendingNonce, .suggestGasPrice, .sign, .send])

/-- `transferToken` (main.go lines 304-374): `Dial`, index check, `Unlock`,
ABI load, amount conversion, pending nonce, gas price, `transfer` call-data
pack, build (value 0, gas limit 60000, recipient = token contract), sign,
broadcast. -/
def transferToken {τ : Type} (node : Node) (ks : KeyStore τ) (fromIndex : Int)
    (toAddress : Nat) (amount : Q) (tokenAddress : Nat) (decimal : Nat) :
    Except Err τ × List Ev :=
  if node.dialOk = false then (.error .dialFailed, [.dial])
  else if fromIndex < 0 ∨ (ks.accounts.length : Int) ≤ fromIndex then
    (.error .invalidIndex, [.dial])
  else if ks.unlockOk = false then (.error .authFailed, [.dial, .unlock])
  else if node.abiOk = false then (.error .abiLoadFailed, [.dial, .unlock])
  else
    let amountInWei := tokenAmountInWei amount decimal
    match node.pendingNonce with
    | .error _ => (.error .nonceFailed, [.dial, .unlock, .pendingNonce])
    | .ok nonce =>
      match node.gasPrice with
      | .error _ => (.error .gasFailed, [.dial, .unlock, .pendingNonce, .suggestGasPrice])
      | .ok gp =>
        let tx : EthTx :=
          ⟨nonce, tokenAddress, 0, 60000, gp, transferCallData toAddress amountInWei⟩
        match ks.signTx tx with
        | .error _ =>
          (.error .signFailed, [.dial, .unlock, .pendingNonce, .suggestGasPrice, .sign])
        | .ok stx =>
          if node.sendOk = false then
            (.error .sendFailed,
             [.dial, .unlock, .pendingNonce, .suggestGasPrice, .sign, .send])
          else
            (.ok stx, [.dial, .unlock, .pendingNonce, .suggestGasPrice, .sign, .send])

/-! ## Helper lemmas -/

theorem digitChar_toNat (k : Nat) (h : k < 10) : (digitChar k).toNat = 48 + k := by
  interval_cases k <;> decide

theorem digitChar_isDigit (k : Nat) (h : k < 10) : isDigitChar (digitChar k) = true := by
  interval_cases k <;> decide

theorem natDigitsAux_all_digits :
    ∀ (fuel n : Nat), ∀ c ∈ natDigitsAux fuel n, isDigitChar c = true := by
  intro fuel
  induction fuel with
  | zero => intro n c hc; simp [natDigitsAux] at hc
  | succ f ih =>
    intro n c hc
    by_cases hn : n = 0
    · simp [natDigitsAux, hn] at hc
    · simp only [natDigitsAux, if_neg hn] at hc
      rcases List.mem_append.mp hc with h1 | h2
      · exact ih _ c h1
      · have hx : c = digitChar (n % 10) := by simpa using h2
        subst hx
        exact digitChar_isDigit _ (Nat.mod_lt n (by norm_num))

theorem natChars_all_digits (n : Nat) : ∀ c ∈ natChars n, isDigitChar c = true := by
  intro c hc
  by_cases hn : n = 0
  · simp [natChars, hn] at hc
    subst hc; decide
  · rw [natChars, if_neg hn] at hc
    exact natDigitsAux_all_digits n n c hc

theorem natChars_ne_nil (n : Nat) : natChars n ≠ [] := by
  by_cases hn : n = 0
  · simp [natChars, hn]
  · rw [natChars, if_neg hn]
    cases n with
    | zero => exact absurd rfl hn
    | succ m => simp [natDigitsAux, hn]

theorem scanFold_append_single (acc : Nat) (l : List Char) (c : Char) :
    scanFold acc (l ++ [c]) = 10 * scanFold acc l + (c.toNat - 48) := by
  simp [scanFold, List.foldl_append]

theorem scanDigits_dot :
    ∀ (ds : List Char) (acc : Nat) (t : List Char),
      (∀ c ∈ ds, isDigitChar c = true) →
      scanDigits acc (ds ++ '.' :: t) = (scanFold acc ds, '.' :: t) := by
  intro ds
  induction ds with
  | nil =>
    intro acc t _
    show (if isDigitChar '.' = true then scanDigits (10 * acc + ('.'.toNat - 48)) t
          else (acc, '.' :: t)) = (scanFold acc [], '.' :: t)
    rw [if_neg (by decide)]
    rfl
  | cons c cs ih =>
    intro acc t hds
    have hc : isDigitChar c = true := hds c (List.mem_cons_self c cs)
    have hstep : scanDigits acc ((c :: cs) ++ '.' :: t)
        = scanDigits (10 * acc + (c.toNat - 48)) (cs ++ '.' :: t) := by
      show (if isDigitChar c = true then scanDigits (10 * acc + (c.toNat - 48)) (cs ++ '.' :: t)
            else (acc, (c :: cs) ++ '.' :: t)) = _
      rw [if_pos hc]
    rw [hstep, ih _ _ (fun x hx => hds x (List.mem_cons_of_mem c hx))]
    rfl

theorem scanFold_natDigitsAux :
    ∀ (fuel n acc : Nat), n ≤ fuel →
      scanFold acc (natDigitsAux fuel n) =
        acc * 10 ^ (natDigitsAux fuel n).length + n := by
  intro fuel
  induction fuel with
  | zero =>
    intro n acc h
    interval_cases n
    simp [natDigitsAux, scanFold]
  | succ f ih =>
    intro n acc h
    by_cases hn : n = 0
    · subst hn; simp [natDigitsAux, scanFold]
    · simp only [natDigitsAux, if_neg hn]
      have hlt : n % 10 < 10 := Nat.mod_lt n (by norm_num)
      have hdivle : n / 10 ≤ f := by
        have h1 : n / 10 < n := Nat.div_lt_self (Nat.pos_of_ne_zero hn) (by norm_num)
        omega
      rw [scanFold_append_single, ih (n / 10) acc hdivle, digitChar_toNat _ hlt]
      simp only [List.length_append, List.length_singleton]
      rw [pow_succ, ← mul_assoc]
      set A := acc * 10 ^ (natDigitsAux f (n / 10)).length with hA
      omega

theorem scanFold_natChars (n : Nat) : scanFold 0 (natChars n) = n := by
  by_cases hn : n = 0
  · subst hn; decide
  · rw [natChars, if_neg hn, scanFold_natDigitsAux n n 0 le_rfl]
    simp

theorem scanSigned_digits_dot (neg : Bool) (ip : Nat) (pad : List Char) :
    scanSigned neg (natChars ip ++ '.' :: pad) =
      ((if neg then -((ip : Nat) : Int) else ((ip : Nat) : Int)), false) := by
  obtain ⟨c0, cs, hcons⟩ := List.exists_cons_of_ne_nil (natChars_ne_nil ip)
  have hc0 : isDigitChar c0 = true :=
    natChars_all_digits _ c0 (hcons ▸ List.mem_cons_self c0 cs)
  unfold scanSigned
  rw [hcons, List.cons_append, List.headD_cons, if_pos hc0, ← List.cons_append, ← hcons,
    scanDigits_dot _ _ _ (natChars_all_digits _), scanFold_natChars]
  rfl

theorem stripSign_no_sign (cs : List Char) (h1 : ¬(cs.headD '*' = '-'))
    (h2 : ¬(cs.headD '*' = '+')) : stripSign cs = (false, cs) := by
  unfold stripSign
  rw [if_neg h1, if_neg h2]

theorem goIntSetString10_render (c : Prop) [Decidable c] (ip : Nat) (pad : List Char) :
    goIntSetString10 ⟨(if c then ['-'] else []) ++ natChars ip ++ '.' :: pad⟩ =
      ((if c then -((ip : Nat) : Int) else ((ip : Nat) : Int)), false) := by
  by_cases hc : c
  · rw [if_pos hc, if_pos hc, List.singleton_append]
    show scanSigned (stripSign ('-' :: (natChars ip ++ '.' :: pad))).1
        (stripSign ('-' :: (natChars ip ++ '.' :: pad))).2 = _
    have hstrip : stripSign ('-' :: (natChars ip ++ '.' :: pad)) =
        (true, natChars ip ++ '.' :: pad) := by
      unfold stripSign
      rw [List.headD_cons, if_pos rfl]
      rfl
    rw [hstrip, scanSigned_digits_dot]
    rfl
  · rw [if_neg hc, if_neg hc, List.nil_append]
    show scanSigned (stripSign (natChars ip ++ '.' :: pad)).1
        (stripSign (natChars ip ++ '.' :: pad)).2 = _
    obtain ⟨c0, cs, hcons⟩ := List.exists_cons_of_ne_nil (natChars_ne_nil ip)
    have hc0 : isDigitChar c0 = true :=
      natChars_all_digits _ c0 (hcons ▸ List.mem_cons_self c0 cs)
    have hdash : ¬(c0 = '-') := by
      intro hx; rw [hx] at hc0; exact absurd hc0 (by decide)
    have hplus : ¬(c0 = '+') := by
      intro hx; rw [hx] at hc0; exact absurd hc0 (by decide)
    have hstrip : stripSign (natChars ip ++ '.' :: pad) =
        (false, natChars ip ++ '.' :: pad) := by
      apply stripSign_no_sign <;> rw [hcons, List.cons_append, List.headD_cons] <;> assumption
    rw [hstrip, scanSigned_digits_dot]
    rfl

theorem goIntSetString10_sprintf (p : Q) :
    goIntSetString10 (goSprintfF p) = (sprintfIntPart p, false) :=
  goIntSetString10_render (p.num < 0)
    ((roundHalfEvenQ (qmul (qabs p) ⟨10 ^ 6, 1⟩)).toNat / 10 ^ 6)
    (padZeros 6 (natChars ((roundHalfEvenQ (qmul (qabs p) ⟨10 ^ 6, 1⟩)).toNat % 10 ^ 6)))

theorem qshift2_den_pos (m e : Int) : 0 < (qshift2 m e).den := by
  unfold qshift2
  split <;> simp [Nat.pos_pow_of_pos]

theorem roundToF64_den_pos (x : Q) : 0 < (roundToF64 x).den := by
  unfold roundToF64
  split
  · norm_num
  · exact qshift2_den_pos _ _

theorem goFloatToInt64_bounds (p : Q) :
    -(2 ^ 63) ≤ goFloatToInt64 p ∧ goFloatToInt64 p ≤ 2 ^ 63 - 1 := by
  unfold goFloatToInt64
  by_cases h : -(2 ^ 63) ≤ goTrunc p ∧ goTrunc p ≤ 2 ^ 63 - 1
  · rw [if_pos h]; exact h
  · rw [if_neg h]; exact ⟨le_refl _, by norm_num⟩

theorem goFloatToInt64_overflow (p : Q) (hden : (0 : Int) < (p.den : Int))
    (hge : qle ⟨2 ^ 63, 1⟩ p) :
    goFloatToInt64 p = -(2 ^ 63) ∧ (2 : Int) ^ 63 ≤ roundQ p := by
  have hnum : (2 : Int) ^ 63 * (p.den : Int) ≤ p.num := by
    have h := hge
    unfold qle at h
    simpa using h
  have hpos : (0 : Int) ≤ p.num := le_trans (by positivity) hnum
  have hfl : (2 : Int) ^ 63 ≤ qfloor p := by
    unfold qfloor
    rw [Int.le_ediv_iff_mul_le hden]
    exact hnum
  have htr : goTrunc p = qfloor p := by
    unfold goTrunc; rw [if_pos hpos]
  constructor
  · unfold goFloatToInt64
    rw [htr, if_neg]
    intro hand
    have h2 := hand.2
    omega
  · show (2 : Int) ^ 63 ≤ (2 * p.num + (p.den : Int)) / ((2 * p.den : Nat) : Int)
    have hden2 : (0 : Int) < ((2 * p.den : Nat) : Int) := by
      push_cast
      omega
    rw [Int.le_ediv_iff_mul_le hden2]
    push_cast
    linarith [hnum, hden]

/-! ## Claim theorems -/

set_option maxRecDepth 8000 in
/-- C1: the spec's round-trip law `toBaseUnits(fromBaseUnits(n, d), d) = n` is
the intended contract but fails on the code.  At `n = 1`, `d = 6`:
`formatBigIntToDecimal` renders `"0.083333"` (it divides by `10 XOR 6 = 12`
instead of `10^6`), and the transfer-token base-unit computation maps the
parsed `float64` of that string back to `83333`, not `1`. -/
theorem c1_roundtrip_fails_on_code :
    formatBigIntToDecimal 1 6 = some "0.083333" ∧
    tokenAmountInWei (roundToF64 ⟨83333, 10 ^ 6⟩) 6 = 83333 ∧
    (83333 : Int) ≠ 1 := by
  refine ⟨by decide, by decide, by decide⟩

set_option maxRecDepth 8000 in
/-- C2: in the check-balance scenario (native balance `2·10^18`, token
`balanceOf` result `5000000`, `decimal = 6`) the native balance prints as
`"2.000000000000000000"` as the spec demands, but the token balance prints
as `"416666.666667"` — the XOR divisor `10 XOR 6 = 12` — instead of the
specified `"5.000000"`. -/
theorem c2_check_balance_scenario_diverges :
    checkBalance ⟨true, .ok 0, .ok 0, .ok (2 * 10 ^ 18), true, .ok (natToBytes32 5000000), true⟩
        [1] 0 9 6 =
      (.ok (some "2.000000000000000000", some "416666.666667"),
       [.dial, .balanceAt, .callContract]) ∧
    (some "416666.666667" : Option String) ≠ some "5.000000" := by
  refine ⟨by decide, by decide⟩

/-- C3: for every `decimals ≠ 18` the divisor used by
`formatBigIntToDecimal` is the bitwise XOR `10 XOR decimals`, not
`10 ^ decimals`: the non-18 branch formats `amount / (10 XOR decimals)`. -/
theorem c3_xor_divisor (n d : Nat) (h : d ≠ 18) :
    divisorFor d = Nat.xor 10 d ∧
    formatBigIntToDecimal n d = goQuoFormat n (Nat.xor 10 d) d := by
  constructor
  · unfold divisorFor
    rw [if_neg h]
  · unfold formatBigIntToDecimal divisorFor
    rw [if_neg h]

/-- C3 witness: at `n = 5000000`, `d = 6` the theorem applies and the divisor
is `10 XOR 6 = 12`. -/
theorem c3_xor_divisor_witness :
    divisorFor 6 = Nat.xor 10 6 ∧
    formatBigIntToDecimal 5000000 6 = goQuoFormat 5000000 (Nat.xor 10 6) 6 :=
  c3_xor_divisor 5000000 6 (by decide)

set_option maxRecDepth 8000 in
/-- The concrete value conversion for one tenth: `int64(fl(0.1) * 1e18)`
is exactly `10^17`. -/
theorem transferEthValueTenth :
    transferEthValue (roundToF64 ⟨1, 10⟩) = 100000000000000000 := by
  decide

/-- C4: transfer-eth with `from = 0`, amount `0.1` (the `float64` nearest to
one tenth), stub pending nonce 3 and gas price 20 builds the unsigned
transaction with value `100000000000000000` base units, gas limit `21000`,
nonce `3`, and broadcasts exactly the signature of that transaction. -/
theorem c4_transfer_eth_scenario (τ : Type) (signFn : EthTx → τ) (sender toA : Nat)
    (bal : Except Unit Nat) (abiOk : Bool) (cr : Except Unit (List Nat)) :
    transferEth ⟨true, .ok 3, .ok 20, bal, abiOk, cr, true⟩
        ⟨[sender], true, fun tx => .ok (signFn tx)⟩ 0 toA (roundToF64 ⟨1, 10⟩) =
      (.ok (signFn ⟨3, toA, 100000000000000000, 21000, 20, []⟩),
       [.dial, .unlock, .pendingNonce, .suggestGasPrice, .sign, .send]) := by
  unfold transferEth
  rw [transferEthValueTenth]
  norm_num

set_option maxRecDepth 8000 in
/-- C5: `fromBaseUnits` does not always produce exactly `d` fractional
digits: at `decimals = 10` the XOR divisor is `10 XOR 10 = 0`, so a nonzero
amount formats as `"+Inf"` (zero fractional digits) and amount `0` panics
(`big.Float.Quo(0, 0)`), while the spec's own example at 18 decimals does
hold. -/
theorem c5_digit_count_fails_at_ten :
    formatBigIntToDecimal 1 10 = some "+Inf" ∧
    fracDigitCount ((formatBigIntToDecimal 1 10).getD "") = 0 ∧
    formatBigIntToDecimal 0 10 = none ∧
    formatBigIntToDecimal (10 ^ 18) 18 = some "1.000000000000000000" := by
  refine ⟨by decide, by decide, by decide, by decide⟩

set_option maxRecDepth 8000 in
/-- C6 counterexample: the packed transfer amount is not always `0`: at
amount `1`, `decimal = 6`, Go's `SetString` scans the digit prefix of
`"1000000.000000"` into the receiver before failing at `'.'`, leaving
`1000000`, and the call-data encodes `1000000`, not `0`. -/
theorem c6_zero_claim_false :
    tokenAmountInWei ⟨1, 1⟩ 6 = 1000000 ∧
    transferCallData 5 (tokenAmountInWei ⟨1, 1⟩ 6) ≠ transferCallData 5 0 := by
  refine ⟨by decide, by decide⟩

/-- C6 (amended): `SetString` does fail on every `%f`-formatted product
(the success flag is always `false`, the string always carrying a decimal
point), but the ignored failure leaves `amountInWei` equal to the signed
integer part of the formatted product — the scanned digit prefix — and that
value, not necessarily `0`, is what the transfer call-data encodes. -/
theorem c6_amended_scanned_prefix (q : Q) (d : Nat) (toA : Nat)
    (hfin : qlt (qabs (f64mulProd q d)) ⟨((2 : Int) ^ 32) ^ 32, 1⟩) :
    (goIntSetString10 (goSprintfF (f64mulProd q d))).2 = false ∧
    tokenAmountInWei q d = sprintfIntPart (f64mulProd q d) ∧
    transferCallData toA (tokenAmountInWei q d) =
      transferCallData toA (sprintfIntPart (f64mulProd q d)) := by
  have h := goIntSetString10_sprintf (f64mulProd q d)
  refine ⟨by rw [h], ?_, ?_⟩
  · show (goIntSetString10 (goSprintfF (f64mulProd q d))).1 = _
    rw [h]
  · show transferCallData toA (goIntSetString10 (goSprintfF (f64mulProd q d))).1 = _
    rw [h]

set_option maxRecDepth 8000 in
/-- C6 witness: at amount `1`, `decimal = 6` (product `10^6`, far inside the
finite `float64` range, whose bound `2^1024` is written `(2^32)^32`) the
amended statement holds concretely. -/
theorem c6_amended_scanned_prefix_witness :
    (goIntSetString10 (goSprintfF (f64mulProd ⟨1, 1⟩ 6))).2 = false ∧
    tokenAmountInWei ⟨1, 1⟩ 6 = sprintfIntPart (f64mulProd ⟨1, 1⟩ 6) ∧
    transferCallData 5 (tokenAmountInWei ⟨1, 1⟩ 6) =
      transferCallData 5 (sprintfIntPart (f64mulProd ⟨1, 1⟩ 6)) :=
  c6_amended_scanned_prefix ⟨1, 1⟩ 6 5 (by decide)

/-- C7 counterexample: with an invalid index, transfer-eth still attempts
the node connection (`ethclient.Dial` runs before the index check), so the
index error is not raised before every node call. -/
theorem c7_dial_before_index_check :
    transferEth (⟨true, .ok 0, .ok 0, .ok 0, true, .ok [], true⟩ : Node)
        (⟨[], true, fun _ => .ok 0⟩ : KeyStore Nat) 0 0 ⟨0, 1⟩ =
      (.error .invalidIndex, [.dial]) ∧
    Ev.dial ∈ (transferEth (⟨true, .ok 0, .ok 0, .ok 0, true, .ok [], true⟩ : Node)
        (⟨[], true, fun _ => .ok 0⟩ : KeyStore Nat) 0 0 ⟨0, 1⟩).2 := by
  refine ⟨rfl, ?_⟩
  show Ev.dial ∈ [Ev.dial]
  exact List.mem_singleton_self _

/-- C7 (amended): an invalid index makes all three commands fail with the
index error before any node request (nonce, gas price, balance, contract
call, broadcast); check-balance validates before even creating the client,
while transfer-eth and transfer-token create the client (`Dial`) first and
validate immediately after. -/
theorem c7_amended_index_guard (τ : Type) (node : Node) (ks : KeyStore τ) (i : Int)
    (ta d toA : Nat) (amt : Q)
    (hidx : i < 0 ∨ (ks.accounts.length : Int) ≤ i) :
    checkBalance node ks.accounts i ta d = (.error .invalidIndex, []) ∧
    (node.dialOk = true →
      transferEth node ks i toA amt = (.error .invalidIndex, [.dial]) ∧
      transferToken node ks i toA amt ta d = (.error .invalidIndex, [.dial])) := by
  refine ⟨?_, fun hdial => ⟨?_, ?_⟩⟩
  · unfold checkBalance
    rw [if_pos hidx]
  · unfold transferEth
    rw [hdial, if_neg (by decide : ¬(true = false)), if_pos hidx]
  · unfold transferToken
    rw [hdial, if_neg (by decide : ¬(true = false)), if_pos hidx]

/-- C7 amended witness: at index `-1` with an empty keystore the amended
statement holds concretely for all three commands. -/
theorem c7_amended_index_guard_witness :
    checkBalance (⟨true, .ok 0, .ok 0, .ok 0, true, .ok [], true⟩ : Node) [] (-1) 0 6 =
        (.error .invalidIndex, []) ∧
    transferEth (⟨true, .ok 0, .ok 0, .ok 0, true, .ok [], true⟩ : Node)
        (⟨[], true, fun _ => .ok (0 : Nat)⟩ : KeyStore Nat) (-1) 0 ⟨0, 1⟩ =
      (.error .invalidIndex, [.dial]) ∧
    transferToken (⟨true, .ok 0, .ok 0, .ok 0, true, .ok [], true⟩ : Node)
        (⟨[], true, fun _ => .ok (0 : Nat)⟩ : KeyStore Nat) (-1) 0 ⟨0, 1⟩ 0 6 =
      (.error .invalidIndex, [.dial]) := by
  have h := c7_amended_index_guard Nat
    (⟨true, .ok 0, .ok 0, .ok 0, true, .ok [], true⟩ : Node)
    (⟨[], true, fun _ => .ok (0 : Nat)⟩ : KeyStore Nat) (-1) 0 6 0 ⟨0, 1⟩ (by decide)
  exact ⟨h.1, (h.2 rfl).1, (h.2 rfl).2⟩

/-- C8 counterexample: `BalanceOf` converts the response with `SetBytes`,
which never fails: the empty response — not a valid 32-byte integer word —
yields balance `0` instead of a decode error. -/
theorem c8_decode_never_fails :
    Token.BalanceOf (.ok []) = .ok 0 ∧ validUint256Word [] = false :=
  ⟨rfl, rfl⟩

/-- C8 (amended): `BalanceOf` fails with the distinguishable RPC-call error
exactly when the node call fails; any successful byte response, of any
length, is interpreted big-endian as a non-negative integer and returned —
no decode error is ever produced. -/
theorem c8_balance_of_amended (r : Except Unit (List Nat)) :
    (∀ e : Unit, r = .error e → Token.BalanceOf r = .error .callFailed) ∧
    (∀ bs : List Nat, r = .ok bs → Token.BalanceOf r = .ok (bytesToNat bs)) := by
  constructor
  · rintro e rfl; rfl
  · rintro bs rfl; rfl

/-- C8 amended witness: concretely, a failed call errors and the 3-byte
response `[1, 2, 3]` decodes to `66051`. -/
theorem c8_balance_of_amended_witness :
    Token.BalanceOf (.error ()) = .error .callFailed ∧
    Token.BalanceOf (.ok [1, 2, 3]) = .ok 66051 :=
  ⟨(c8_balance_of_amended (.error ())).1 () rfl,
   by
     rw [(c8_balance_of_amended (.ok [1, 2, 3])).2 [1, 2, 3] rfl]
     rfl⟩

/-- C9: when the configured secret fails to unlock the selected account,
both transfer commands stop with the authentication error right after
`Unlock`: no signature is requested and nothing is broadcast. -/
theorem c9_wrong_secret_blocks_signing (τ : Type) (node : Node) (ks : KeyStore τ)
    (i : Int) (toA ta : Nat) (amt : Q) (d : Nat)
    (hdial : node.dialOk = true)
    (hidx : ¬(i < 0 ∨ (ks.accounts.length : Int) ≤ i))
    (hauth : ks.unlockOk = false) :
    transferEth node ks i toA amt = (.error .authFailed, [.dial, .unlock]) ∧
    transferToken node ks i toA amt ta d = (.error .authFailed, [.dial, .unlock]) ∧
    Ev.sign ∉ (transferEth node ks i toA amt).2 ∧
    Ev.send ∉ (transferEth node ks i toA amt).2 ∧
    Ev.sign ∉ (transferToken node ks i toA amt ta d).2 ∧
    Ev.send ∉ (transferToken node ks i toA amt ta d).2 := by
  have h1 : transferEth node ks i toA amt = (.error .authFailed, [.dial, .unlock]) := by
    unfold transferEth
    rw [hdial, if_neg (by decide : ¬(true = false)), if_neg hidx, hauth, if_pos rfl]
  have h2 : transferToken node ks i toA amt ta d = (.error .authFailed, [.dial, .unlock]) := by
    unfold transferToken
    rw [hdial, if_neg (by decide : ¬(true = false)), if_neg hidx, hauth, if_pos rfl]
  refine ⟨h1, h2, ?_, ?_, ?_, ?_⟩
  · rw [h1]
    show Ev.sign ∉ [Ev.dial, Ev.unlock]
    decide
  · rw [h1]
    show Ev.send ∉ [Ev.dial, Ev.unlock]
    decide
  · rw [h2]
    show Ev.sign ∉ [Ev.dial, Ev.unlock]
    decide
  · rw [h2]
    show Ev.send ∉ [Ev.dial, Ev.unlock]
    decide

/-- C9 witness: a concrete failing unlock (one stored account, index 0)
stops both transfers at the authentication step. -/
theorem c9_wrong_secret_blocks_signing_witness :
    transferEth (⟨true, .ok 0, .ok 0, .ok 0, true, .ok [], true⟩ : Node)
        (⟨[7], false, fun _ => .ok (0 : Nat)⟩ : KeyStore Nat) 0 0 ⟨0, 1⟩ =
      (.error .authFailed, [.dial, .unlock]) ∧
    transferToken (⟨true, .ok 0, .ok 0, .ok 0, true, .ok [], true⟩ : Node)
        (⟨[7], false, fun _ => .ok (0 : Nat)⟩ : KeyStore Nat) 0 0 ⟨0, 1⟩ 0 6 =
      (.error .authFailed, [.dial, .unlock]) ∧
    Ev.sign ∉ (transferEth (⟨true, .ok 0, .ok 0, .ok 0, true, .ok [], true⟩ : Node)
        (⟨[7], false, fun _ => .ok (0 : Nat)⟩ : KeyStore Nat) 0 0 ⟨0, 1⟩).2 ∧
    Ev.send ∉ (transferEth (⟨true, .ok 0, .ok 0, .ok 0, true, .ok [], true⟩ : Node)
        (⟨[7], false, fun _ => .ok (0 : Nat)⟩ : KeyStore Nat) 0 0 ⟨0, 1⟩).2 ∧
    Ev.sign ∉ (transferToken (⟨true, .ok 0, .ok 0, .ok 0, true, .ok [], true⟩ : Node)
        (⟨[7], false, fun _ => .ok (0 : Nat)⟩ : KeyStore Nat) 0 0 ⟨0, 1⟩ 0 6).2 ∧
    Ev.send ∉ (transferToken (⟨true, .ok 0, .ok 0, .ok 0, true, .ok [], true⟩ : Node)
        (⟨[7], false, fun _ => .ok (0 : Nat)⟩ : KeyStore Nat) 0 0 ⟨0, 1⟩ 0 6).2 :=
  c9_wrong_secret_blocks_signing Nat
    (⟨true, .ok 0, .ok 0, .ok 0, true, .ok [], true⟩ : Node)
    (⟨[7], false, fun _ => .ok (0 : Nat)⟩ : KeyStore Nat) 0 0 0 ⟨0, 1⟩ 6
    rfl (by decide) rfl

/-- C10: the transfer-eth value is the `int64` conversion of the `float64`
product `amount * 1e18`, so it always lies in the `int64` range
`[-2^63, 2^63 - 1]`; and whenever that product reaches `2^63` the stored
value cannot equal the rounded product (the conversion overflows). -/
theorem c10_value_is_int64 (q : Q) :
    (-(2 ^ 63) ≤ transferEthValue q ∧ transferEthValue q ≤ 2 ^ 63 - 1) ∧
    (qle ⟨2 ^ 63, 1⟩ (roundToF64 (qmul q ⟨10 ^ 18, 1⟩)) →
      transferEthValue q ≠ roundQ (roundToF64 (qmul q ⟨10 ^ 18, 1⟩))) := by
  constructor
  · exact goFloatToInt64_bounds _
  · intro hge
    have hden : (0 : Int) < ((roundToF64 (qmul q ⟨10 ^ 18, 1⟩)).den : Int) := by
      exact_mod_cast roundToF64_den_pos _
    obtain ⟨hv, hr⟩ := goFloatToInt64_overflow _ hden hge
    show goFloatToInt64 (roundToF64 (qmul q ⟨10 ^ 18, 1⟩)) ≠ _
    rw [hv]
    omega

set_option maxRecDepth 8000 in
/-- C10 witness: at amount `10` (product `10^19 ≥ 2^63`, exactly
representable) the value overflows to `-2^63` and differs from the rounded
product. -/
theorem c10_value_is_int64_witness :
    ((-(2 ^ 63) ≤ transferEthValue ⟨10, 1⟩ ∧ transferEthValue ⟨10, 1⟩ ≤ 2 ^ 63 - 1) ∧
      (qle ⟨2 ^ 63, 1⟩ (roundToF64 (qmul ⟨10, 1⟩ ⟨10 ^ 18, 1⟩)) ∧
        transferEthValue ⟨10, 1⟩ ≠ roundQ (roundToF64 (qmul ⟨10, 1⟩ ⟨10 ^ 18, 1⟩)))) :=
  ⟨(c10_value_is_int64 ⟨10, 1⟩).1,
   ⟨by decide, (c10_value_is_int64 ⟨10, 1⟩).2 (by decide)⟩⟩
